import Mathlib

/-!
# circular_buffer_plot.c : the ring buffer, the producer loop and the plot loop

A shallow embedding of `src/circular_buffer_plot.c`.

* The global `cbuffer` becomes an explicit `CircularBuffer` value that every
  operation receives and returns.
* `size_t` is an unsigned 64-bit integer: index arithmetic is done on `Nat`
  and reduced modulo `SIZE_T_MOD = 2 ^ 64` where the C expression can wrap.
* `int` values are mathematical integers; C division and remainder truncate
  toward zero (`Int.tdiv`, `Int.tmod`), a cast to `Uint8` reduces modulo 256.
* A call that suspends in `pthread_cond_wait` has outcome `blocked`: in a
  sequential run nothing can change the condition it waits for.  A call that
  leaves defined behaviour (remainder by zero, access outside the storage
  block) has outcome `fault`.
* The block returned by `malloc` is an input of `init_buffer`: its contents
  are arbitrary, and the theorems assume it holds `size` integers.
-/

namespace CircularBufferPlot

/-! ## Data model -/

/-- Modulus of `size_t` arithmetic. -/
def SIZE_T_MOD : Nat := 2 ^ 64

/-- Result of a call on the shared buffer. -/
inductive Outcome (α : Type) where
  /-- The call returned. -/
  | done (a : α)
  /-- The caller is suspended in `pthread_cond_wait`. -/
  | blocked
  /-- The call left defined behaviour. -/
  | fault
  deriving DecidableEq, Repr

/-- The fields of `CircularBuffer` that hold data (lines 23-31); `buffer` is
the block behind the `int*`, `end_` is the field `end`. -/
structure CircularBuffer where
  buffer : List Int
  size : Nat
  start : Nat
  end_ : Nat
  deriving DecidableEq, Repr

/-- Lines 40-48: `mem` is the block that `malloc` returned. -/
def init_buffer (size : Nat) (mem : List Int) : CircularBuffer :=
  { buffer := mem, size := size, start := 0, end_ := 0 }

/-- The successor index `(i + 1) % cbuffer.size` on `size_t`. -/
def next_index (i size : Nat) : Nat :=
  (i + 1) % SIZE_T_MOD % size

/-- Line 57: the condition on which `push_buffer` waits. -/
def push_waits (cb : CircularBuffer) : Bool :=
  next_index cb.end_ cb.size == cb.start

/-- Line 73: the condition on which `pop_buffer` waits. -/
def pop_waits (cb : CircularBuffer) : Bool :=
  cb.start == cb.end_

/-- Lines 55-64. -/
def push_buffer (value : Int) (cb : CircularBuffer) : Outcome CircularBuffer :=
  if cb.size = 0 then .fault
  else if push_waits cb then .blocked
  else if cb.end_ < cb.buffer.length then
    .done { cb with buffer := cb.buffer.set cb.end_ value,
                    end_ := next_index cb.end_ cb.size }
  else .fault

/-- Lines 71-81. -/
def pop_buffer (cb : CircularBuffer) : Outcome (Int × CircularBuffer) :=
  if pop_waits cb then .blocked
  else
    match cb.buffer[cb.start]? with
    | none => .fault
    | some value =>
      if cb.size = 0 then .fault
      else .done (value, { cb with start := next_index cb.start cb.size })

/-! ## The plot loop -/

/-- Line 169-171: conversion of an `int` to `Uint8`. -/
def toUint8 (x : Int) : Nat :=
  (x % 256).toNat

/-- Line 169. -/
def red (value : Int) : Nat := toUint8 (Int.tmod value 256)

/-- Line 170. -/
def green (value : Int) : Nat := toUint8 (Int.tmod (Int.tdiv value 2) 256)

/-- Line 171. -/
def blue (value : Int) : Nat := toUint8 (Int.tmod (Int.tdiv value 4) 256)

/-- What one pass through the loop body (lines 162-177) draws: the slot it
read, the value found there and the colour of the rectangle.  The position
of the rectangle is a function of `slot` alone and is left out. -/
structure Block where
  slot : Nat
  value : Int
  r : Nat
  g : Nat
  b : Nat
  deriving DecidableEq, Repr

/-- Lines 162-177 for slot `i` holding `value`. -/
def plot_block (i : Nat) (value : Int) : Block :=
  { slot := i, value := value, r := red value, g := green value, b := blue value }

/-- Result of running the `for` loop of lines 161-178 with a step budget. -/
inductive LoopResult where
  /-- The loop condition became false: the buffer afterwards and the blocks drawn. -/
  | finished (cb : CircularBuffer) (drawn : List Block)
  /-- The loop left defined behaviour. -/
  | fault
  /-- The budget was used up before the loop condition became false. -/
  | out_of_fuel
  deriving DecidableEq, Repr

/-- Lines 161-178: the loop at index `i`, with `fuel` evaluations of the loop
condition left. -/
def plot_loop : Nat → CircularBuffer → Nat → LoopResult
  | 0, _, _ => .out_of_fuel
  | fuel + 1, cb, i =>
    if i = cb.end_ then .finished cb []
    else
      match cb.buffer[i]? with
      | none => .fault
      | some value =>
        if cb.size = 0 then .fault
        else
          match plot_loop fuel cb (next_index i cb.size) with
          | .finished cb' drawn => .finished cb' (plot_block i value :: drawn)
          | r => r

/-- Lines 161-178 entered as written, at `i = cbuffer.start`. -/
def snapshot (fuel : Nat) (cb : CircularBuffer) : LoopResult :=
  plot_loop fuel cb cb.start

/-! ## Runs of the buffer -/

/-- One call on the buffer. -/
inductive Op where
  | push (value : Int)
  | pop
  deriving DecidableEq, Repr

/-- The calls of `ops` made one after the other from `cb`: the final buffer
and the values the `pop_buffer` calls returned, in call order.  The run is
`blocked` as soon as one call finds its wait condition true. -/
def run : CircularBuffer → List Op → Outcome (CircularBuffer × List Int)
  | cb, [] => .done (cb, [])
  | cb, .push value :: ops =>
    match push_buffer value cb with
    | .done cb' => run cb' ops
    | .blocked => .blocked
    | .fault => .fault
  | cb, .pop :: ops =>
    match pop_buffer cb with
    | .done (value, cb') =>
      match run cb' ops with
      | .done (last, values) => .done (last, value :: values)
      | .blocked => .blocked
      | .fault => .fault
    | .blocked => .blocked
    | .fault => .fault

/-- Every call of `ops`, made in turn from `cb`, finds its wait condition
false at the moment it is made: line 57 for a push, line 73 for a pop. -/
def no_wait : CircularBuffer → List Op → Bool
  | _, [] => true
  | cb, .push value :: ops =>
    !push_waits cb &&
      match push_buffer value cb with
      | .done cb' => no_wait cb' ops
      | _ => true
  | cb, .pop :: ops =>
    !pop_waits cb &&
      match pop_buffer cb with
      | .done (_, cb') => no_wait cb' ops
      | _ => true

/-- The values given to `push_buffer` in `ops`, in call order. -/
def pushed : List Op → List Int
  | [] => []
  | .push value :: ops => value :: pushed ops
  | .pop :: ops => pushed ops

/-- The number of `pop_buffer` calls in `ops`. -/
def pops : List Op → Nat
  | [] => 0
  | .push _ :: ops => pops ops
  | .pop :: ops => pops ops + 1

/-- The number of held values as the mathematical `(end - start) mod size`. -/
def held (cb : CircularBuffer) : Nat :=
  (((cb.end_ : Int) - (cb.start : Int)) % (cb.size : Int)).toNat

/-- The `k`-th ring position counted from `start`. -/
def ring (cb : CircularBuffer) (k : Nat) : Nat :=
  (cb.start + k) % cb.size

/-- The values of the blocks drawn by a finished loop, `none` otherwise. -/
def drawn_values : LoopResult → Option (List Int)
  | .finished _ drawn => some (drawn.map Block.value)
  | _ => none

/-- The buffer `cb` of capacity `C` holds the queue `q`: the values of `q`
sit in the ring positions `start`, `start + 1`, ... and `end` follows them. -/
def Holds (C : Nat) (cb : CircularBuffer) (q : List Int) : Prop :=
  cb.size = C ∧ cb.buffer.length = C ∧ cb.start < C ∧ q.length < C ∧
  cb.end_ = (cb.start + q.length) % C ∧
  ∀ k, k < q.length → cb.buffer[(cb.start + k) % C]? = q[k]?

/-- The index bounds of a buffer of capacity `C` over a block of `C` integers. -/
def InBounds (C : Nat) (cb : CircularBuffer) : Prop :=
  cb.size = C ∧ cb.buffer.length = C ∧ cb.start < C ∧ cb.end_ < C

/-! ## The colour formula as the specification words it -/

/-- Specification, section 4.3: `red = v mod 256`. -/
def spec_red (v : Int) : Nat := (v % 256).toNat

/-- Specification, section 4.3: `green = floor(v / 2) mod 256`. -/
def spec_green (v : Int) : Nat := (Int.fdiv v 2 % 256).toNat

/-- Specification, section 4.3: `blue = floor(v / 4) mod 256`. -/
def spec_blue (v : Int) : Nat := (Int.fdiv v 4 % 256).toNat

/-- Quotient rounded toward zero, written with floor division only. -/
def toward_zero (v d : Int) : Int :=
  if 0 ≤ v then Int.fdiv v d else -Int.fdiv (-v) d

/-! ## The producer loop -/

/-- The value of `sizeof(int)`. -/
def SIZEOF_INT : Int := 4

/-- The value of `EXIT_FAILURE`. -/
def EXIT_FAILURE : Int := 1

/-- The value of `EXIT_SUCCESS`. -/
def EXIT_SUCCESS : Int := 0

/-- The value of `SIGINT`. -/
def SIGINT : Int := 2

/-- The value of `SIGTERM`. -/
def SIGTERM : Int := 15

/-- What one call of `read` (line 109) delivered: its return value and the
content of `random_value` afterwards. -/
structure ReadResult where
  ret : Int
  random_value : Int
  deriving DecidableEq, Repr

/-- The calls that `read_file_thread` makes after `open`, in program order. -/
inductive Call where
  | perror
  | exit (status : Int)
  | lseek (offset : Int)
  | read
  | push_buffer (value : Int)
  deriving DecidableEq, Repr

/-- Where the producer thread stands. -/
inductive Status where
  /-- At the head of the `while (1)` loop. -/
  | running
  /-- Suspended inside `push_buffer`. -/
  | blocked
  /-- Outside defined behaviour. -/
  | fault
  /-- The process has called `exit`. -/
  | exited (status : Int)
  deriving DecidableEq, Repr

/-- The state that `read_file_thread` works on. -/
structure Producer where
  read_restart : Int
  cb : CircularBuffer
  calls : List Call
  status : Status
  deriving DecidableEq, Repr

/-- Lines 101-111: one pass through the body of the `while (1)` loop, in
which `read` delivers `r`. -/
def read_file_iteration (r : ReadResult) (p : Producer) : Producer :=
  let p1 : Producer :=
    if p.read_restart ≠ 0 then
      { p with calls := p.calls ++ [Call.lseek 0], read_restart := 0 }
    else p
  let p2 : Producer := { p1 with calls := p1.calls ++ [Call.read] }
  if r.ret = SIZEOF_INT then
    let p3 : Producer := { p2 with calls := p2.calls ++ [Call.push_buffer r.random_value] }
    match push_buffer r.random_value p3.cb with
    | .done cb' => { p3 with cb := cb' }
    | .blocked => { p3 with status := Status.blocked }
    | .fault => { p3 with status := Status.fault }
  else p2

/-- Lines 100-112: the loop, run for as many passes as `reads` has results
and for as long as the thread is at the head of the loop. -/
def read_file_loop : List ReadResult → Producer → Producer
  | [], p => p
  | r :: reads, p =>
    match p.status with
    | .running => read_file_loop reads (read_file_iteration r p)
    | _ => p

/-- Lines 93-116: `fd` is what `open` returned. -/
def read_file_thread (fd : Int) (reads : List ReadResult) (p : Producer) : Producer :=
  if fd = -1 then
    { p with calls := p.calls ++ [Call.perror, Call.exit EXIT_FAILURE],
             status := Status.exited EXIT_FAILURE }
  else read_file_loop reads p

/-- The producer before its first pass, over the buffer `cb`. -/
def producer_start (cb : CircularBuffer) : Producer :=
  { read_restart := 0, cb := cb, calls := [], status := Status.running }

/-- The number of `lseek` calls in a list of calls. -/
def resets : List Call → Nat
  | [] => 0
  | .lseek _ :: cs => resets cs + 1
  | _ :: cs => resets cs

/-! ## The locking discipline -/

/-- The fields of `cbuffer` that the threads share. -/
inductive Field where
  | start
  | end_
  | size
  | storage
  deriving DecidableEq, Repr

/-- The steps of a function that matter for the locking discipline. -/
inductive Step where
  /-- The call `pthread_mutex_lock(&cbuffer.mutex)`. -/
  | lock
  /-- The call `pthread_mutex_unlock(&cbuffer.mutex)`. -/
  | unlock
  /-- The call `pthread_cond_wait` on `cbuffer.mutex`, which returns with the mutex held. -/
  | cond_wait
  | cond_signal
  | load (f : Field)
  | store (f : Field)
  /-- The call `free(cbuffer.buffer)`. -/
  | free_storage
  | cancel
  | exit (status : Int)
  deriving DecidableEq, Repr

/-- Every access to the buffer in `steps` is made with the mutex held, by a
thread for which `locked` tells whether it holds the mutex at the start. -/
def guarded : Bool → List Step → Bool
  | _, [] => true
  | _, .lock :: steps => guarded true steps
  | _, .unlock :: steps => guarded false steps
  | locked, .load _ :: steps => locked && guarded locked steps
  | locked, .store _ :: steps => locked && guarded locked steps
  | locked, .free_storage :: steps => locked && guarded locked steps
  | locked, _ :: steps => guarded locked steps

/-- Lines 57-59, for a caller that is woken `waits` times with the condition
still true, followed by `tail`. -/
def push_wait_steps : Nat → List Step → List Step
  | 0, tail => Step.load .end_ :: Step.load .size :: Step.load .start :: tail
  | waits + 1, tail =>
    Step.load .end_ :: Step.load .size :: Step.load .start :: Step.cond_wait ::
      push_wait_steps waits tail

/-- Lines 56-63. -/
def push_buffer_steps (waits : Nat) : List Step :=
  Step.lock :: push_wait_steps waits
    [Step.load .end_, Step.store .storage, Step.load .end_, Step.load .size,
     Step.store .end_, Step.cond_signal, Step.unlock]

/-- Lines 73-75, for a caller that is woken `waits` times with the condition
still true, followed by `tail`. -/
def pop_wait_steps : Nat → List Step → List Step
  | 0, tail => Step.load .start :: Step.load .end_ :: tail
  | waits + 1, tail =>
    Step.load .start :: Step.load .end_ :: Step.cond_wait :: pop_wait_steps waits tail

/-- Lines 72-79. -/
def pop_buffer_steps (waits : Nat) : List Step :=
  Step.lock :: pop_wait_steps waits
    [Step.load .start, Step.load .storage, Step.load .start, Step.load .size,
     Step.store .start, Step.cond_signal, Step.unlock]

/-- Lines 161-178 for `passes` passes through the body, followed by `tail`. -/
def plot_loop_steps : Nat → List Step → List Step
  | 0, tail => Step.load .end_ :: tail
  | passes + 1, tail =>
    Step.load .end_ :: Step.load .storage :: Step.load .size :: plot_loop_steps passes tail

/-- Lines 156-180. -/
def plot_pass_steps (passes : Nat) : List Step :=
  Step.lock :: Step.load .start :: plot_loop_steps passes [Step.unlock]

/-- Lines 199-211. -/
def handle_signal_steps (sig : Int) : List Step :=
  if sig = SIGINT ∨ sig = SIGTERM then
    [Step.cancel, Step.cancel, Step.free_storage, Step.exit EXIT_SUCCESS]
  else []

/-! ## Index arithmetic -/

theorem mod_wrap (a C : Nat) (h : a < 2 * C) :
    a % C = if a < C then a else a - C := by
  split
  · exact Nat.mod_eq_of_lt ‹_›
  · rw [Nat.mod_eq_sub_mod (by omega)]
    exact Nat.mod_eq_of_lt (by omega)

theorem next_index_eq (i C : Nat) (hi : i < C) (hmax : C < SIZE_T_MOD) :
    next_index i C = (i + 1) % C := by
  unfold next_index
  rw [Nat.mod_eq_of_lt (a := i + 1) (by omega)]

theorem next_index_lt (i C : Nat) (hC : 0 < C) : next_index i C < C :=
  Nat.mod_lt _ hC

/-! ## The buffer as a queue -/

theorem holds_init (C : Nat) (mem : List Int) (hC : 1 ≤ C) (hmem : mem.length = C) :
    Holds C (init_buffer C mem) [] := by
  refine ⟨rfl, hmem, hC, hC, ?_, ?_⟩
  · simp [init_buffer]
  · intro k hk
    simp at hk

theorem holds_end_lt {C : Nat} {cb : CircularBuffer} {q : List Int}
    (h : Holds C cb q) : cb.end_ < C := by
  obtain ⟨_, _, hst, _, he, _⟩ := h
  rw [he]
  exact Nat.mod_lt _ (by omega)

theorem holds_next_end {C : Nat} {cb : CircularBuffer} {q : List Int}
    (hmax : C < SIZE_T_MOD) (h : Holds C cb q) :
    next_index cb.end_ cb.size = (cb.start + (q.length + 1)) % C := by
  have hlt := holds_end_lt h
  obtain ⟨hs, _, _, _, he, _⟩ := h
  rw [hs, next_index_eq _ _ hlt hmax, he, Nat.mod_add_mod, Nat.add_assoc]

theorem holds_push_waits {C : Nat} {cb : CircularBuffer} {q : List Int}
    (hmax : C < SIZE_T_MOD) (h : Holds C cb q) :
    push_waits cb = true ↔ q.length + 1 = C := by
  have hn := holds_next_end hmax h
  obtain ⟨_, _, hst, hq, _, _⟩ := h
  unfold push_waits
  rw [hn, beq_iff_eq, mod_wrap _ _ (by omega)]
  split <;> omega

theorem holds_pop_waits {C : Nat} {cb : CircularBuffer} {q : List Int}
    (h : Holds C cb q) : pop_waits cb = true ↔ q = [] := by
  obtain ⟨_, _, hst, hq, he, _⟩ := h
  unfold pop_waits
  rw [he, beq_iff_eq, mod_wrap _ _ (by omega), ← List.length_eq_zero]
  split <;> omega

theorem holds_push {C : Nat} {cb : CircularBuffer} {q : List Int}
    (hmax : C < SIZE_T_MOD) (h : Holds C cb q) (hroom : q.length + 1 < C) (value : Int) :
    ∃ cb', push_buffer value cb = .done cb' ∧ Holds C cb' (q ++ [value]) ∧
      cb'.start = cb.start := by
  have hw := holds_push_waits hmax h
  have hn := holds_next_end hmax h
  have hlt := holds_end_lt h
  obtain ⟨hs, hl, hst, hq, he, hb⟩ := h
  have hw' : push_waits cb = false := by
    cases hpw : push_waits cb with
    | false => rfl
    | true => exact absurd (hw.mp hpw) (by omega)
  refine ⟨{ cb with buffer := cb.buffer.set cb.end_ value,
                     end_ := next_index cb.end_ cb.size }, ?_, ?_, rfl⟩
  · have hsz : cb.size ≠ 0 := by omega
    simp [push_buffer, hsz, hw', hl, hlt]
  · refine ⟨hs, ?_, hst, ?_, ?_, ?_⟩
    · show (cb.buffer.set cb.end_ value).length = C
      simpa using hl
    · simpa using hroom
    · show next_index cb.end_ cb.size = (cb.start + (q ++ [value]).length) % C
      simpa using hn
    · intro k hk
      show (cb.buffer.set cb.end_ value)[(cb.start + k) % C]? = (q ++ [value])[k]?
      simp only [List.length_append, List.length_singleton] at hk
      by_cases hkq : k < q.length
      · have hne : cb.end_ ≠ (cb.start + k) % C := by
          rw [he, mod_wrap _ _ (by omega), mod_wrap _ _ (by omega)]
          split <;> split <;> omega
        rw [List.getElem?_set_ne hne, hb k hkq, List.getElem?_append_left hkq]
      · have hkeq : k = q.length := by omega
        subst hkeq
        rw [← he]
        simp [hl, hlt]

theorem holds_pop {C : Nat} {cb : CircularBuffer} {q : List Int} {value : Int}
    (hmax : C < SIZE_T_MOD) (h : Holds C cb (value :: q)) :
    ∃ cb', pop_buffer cb = .done (value, cb') ∧ Holds C cb' q ∧
      cb'.end_ = cb.end_ ∧ cb'.buffer = cb.buffer := by
  have hw := holds_pop_waits h
  obtain ⟨hs, hl, hst, hq, he, hb⟩ := h
  have hw' : pop_waits cb = false := by
    cases hpw : pop_waits cb with
    | false => rfl
    | true => exact absurd (hw.mp hpw) (by simp)
  have h0 := hb 0 (by simp)
  simp only [Nat.add_zero, Nat.mod_eq_of_lt hst, List.getElem?_cons_zero] at h0
  simp only [List.length_cons] at hq he
  refine ⟨{ cb with start := next_index cb.start cb.size }, ?_, ?_, rfl, rfl⟩
  · unfold pop_buffer
    rw [hw']
    simp [h0]
    omega
  · have hnx : next_index cb.start cb.size = (cb.start + 1) % C := by
      rw [hs, next_index_eq _ _ hst hmax]
    refine ⟨hs, hl, ?_, by omega, ?_, ?_⟩
    · show next_index cb.start cb.size < C
      rw [hnx]; exact Nat.mod_lt _ (by omega)
    · show cb.end_ = (next_index cb.start cb.size + q.length) % C
      rw [hnx, he, Nat.mod_add_mod]
      congr 1; omega
    · intro k hk
      show cb.buffer[(next_index cb.start cb.size + k) % C]? = q[k]?
      rw [hnx, Nat.mod_add_mod]
      have := hb (k + 1) (by simp; omega)
      rw [List.getElem?_cons_succ] at this
      rw [← this]
      congr 2; omega


theorem holds_push_blocked {C : Nat} {cb : CircularBuffer} {q : List Int}
    (hmax : C < SIZE_T_MOD) (h : Holds C cb q) (hfull : q.length + 1 = C) (value : Int) :
    push_buffer value cb = .blocked := by
  have hw := (holds_push_waits hmax h).mpr hfull
  have hsz : cb.size ≠ 0 := by have := h.1; omega
  simp [push_buffer, hsz, hw]

theorem holds_pop_blocked {C : Nat} {cb : CircularBuffer}
    (h : Holds C cb []) : pop_buffer cb = .blocked := by
  have hw := (holds_pop_waits h).mpr rfl
  simp [pop_buffer, hw]

theorem holds_run {C : Nat} (hmax : C < SIZE_T_MOD) :
    ∀ (ops : List Op) (cb : CircularBuffer) (q : List Int), Holds C cb q →
      run cb ops ≠ .blocked →
      ∃ cb' popped, run cb ops = .done (cb', popped) ∧
        pops ops ≤ (q ++ pushed ops).length ∧
        popped = (q ++ pushed ops).take (pops ops) ∧
        Holds C cb' ((q ++ pushed ops).drop (pops ops)) := by
  intro ops
  induction ops with
  | nil =>
    intro cb q h _
    exact ⟨cb, [], rfl, by simp [pops], by simp [pops], by simpa [pops, pushed] using h⟩
  | cons op ops ih =>
    intro cb q h hnb
    cases op with
    | push value =>
      have hq : q.length < C := h.2.2.2.1
      by_cases hfull : q.length + 1 = C
      · exact absurd (by simp [run, holds_push_blocked hmax h hfull value]) hnb
      · obtain ⟨cb', hpush, hcb', _⟩ := holds_push hmax h (by omega) value
        have hrun : run cb (.push value :: ops) = run cb' ops := by simp [run, hpush]
        rw [hrun] at hnb ⊢
        obtain ⟨cb2, popped, hr, hle, hpop, hh⟩ := ih cb' (q ++ [value]) hcb' hnb
        refine ⟨cb2, popped, hr, ?_, ?_, ?_⟩
        · simpa [pops, pushed] using hle
        · simpa [pops, pushed] using hpop
        · simpa [pops, pushed] using hh
    | pop =>
      cases q with
      | nil => exact absurd (by simp [run, holds_pop_blocked h]) hnb
      | cons value q =>
        obtain ⟨cb', hpop, hcb', _⟩ := holds_pop hmax h
        have hnb' : run cb' ops ≠ .blocked := by
          intro hb
          exact hnb (by simp [run, hpop, hb])
        obtain ⟨cb2, popped, hr, hle, hpopped, hh⟩ := ih cb' q hcb' hnb'
        refine ⟨cb2, value :: popped, by simp [run, hpop, hr], ?_, ?_, ?_⟩
        · simpa [pops] using hle
        · simp [pops, pushed, hpopped]
        · simpa [pops, pushed] using hh

/-! ## The loop of the plot thread -/

theorem plot_loop_spec (cb : CircularBuffer) (C : Nat) (hs : cb.size = C)
    (hl : cb.buffer.length = C) (hmax : C < SIZE_T_MOD) :
    ∀ (n fuel i : Nat), i < C → n < C → cb.end_ = (i + n) % C → n < fuel →
      plot_loop fuel cb i = .finished cb
        ((List.range n).map fun k =>
          plot_block ((i + k) % C) (cb.buffer.getD ((i + k) % C) 0)) := by
  intro n
  induction n with
  | zero =>
    intro fuel i hi _ he hf
    obtain ⟨f, rfl⟩ : ∃ f, fuel = f + 1 := ⟨fuel - 1, by omega⟩
    have : i = cb.end_ := by rw [he, Nat.add_zero, Nat.mod_eq_of_lt hi]
    simp [plot_loop, this]
  | succ n ih =>
    intro fuel i hi hn he hf
    obtain ⟨f, rfl⟩ : ∃ f, fuel = f + 1 := ⟨fuel - 1, by omega⟩
    have hne : i ≠ cb.end_ := by
      rw [he, mod_wrap _ _ (by omega)]
      split <;> omega
    have hsz : cb.size ≠ 0 := by omega
    have hget : cb.buffer[i]? = some (cb.buffer.getD i 0) := by
      rw [List.getD_eq_getElem?_getD, List.getElem?_eq_getElem (by omega)]
      rfl
    have hnx : next_index i cb.size = (i + 1) % C := by
      rw [hs, next_index_eq _ _ hi hmax]
    have hrec := ih f ((i + 1) % C) (Nat.mod_lt _ (by omega)) (by omega)
      (by rw [he, Nat.mod_add_mod]; congr 1; omega) (by omega)
    rw [plot_loop, if_neg hne, hget]
    simp only [hsz, if_false, hnx, hrec]
    rw [List.range_succ_eq_map, List.map_cons, List.map_map]
    simp only [Nat.add_zero, Nat.mod_eq_of_lt hi, LoopResult.finished.injEq, true_and,
      List.cons.injEq]
    apply List.map_congr_left
    intro k _
    simp only [Function.comp, Nat.succ_eq_add_one, Nat.mod_add_mod]
    have : i + 1 + k = i + (k + 1) := by omega
    rw [this]

theorem held_eq (cb : CircularBuffer)
    (hst : cb.start < cb.size) (hen : cb.end_ < cb.size) :
    held cb = if cb.start ≤ cb.end_ then cb.end_ - cb.start
      else cb.end_ + cb.size - cb.start := by
  unfold held
  split
  · rw [Int.emod_eq_of_lt (by omega) (by omega)]
    omega
  · rw [← Int.add_emod_self, Int.emod_eq_of_lt (by omega) (by omega)]
    omega

theorem held_spec (cb : CircularBuffer) (hsz : 0 < cb.size)
    (hst : cb.start < cb.size) (hen : cb.end_ < cb.size) :
    held cb < cb.size ∧ cb.end_ = (cb.start + held cb) % cb.size := by
  rw [held_eq cb hst hen]
  split
  · refine ⟨by omega, ?_⟩
    rw [mod_wrap _ _ (by omega)]
    split <;> omega
  · refine ⟨by omega, ?_⟩
    rw [mod_wrap _ _ (by omega)]
    split <;> omega

theorem holds_held {C : Nat} {cb : CircularBuffer} {q : List Int}
    (h : Holds C cb q) : held cb = q.length := by
  have hlt := holds_end_lt h
  obtain ⟨hs, _, hst, hq, he, _⟩ := h
  subst hs
  rw [held_eq cb hst hlt]
  rw [mod_wrap _ _ (by omega)] at he
  split at he <;> split <;> omega

theorem holds_snapshot {C : Nat} {cb : CircularBuffer} {q : List Int}
    (hmax : C < SIZE_T_MOD) (h : Holds C cb q) (fuel : Nat) (hf : q.length < fuel) :
    ∃ drawn, snapshot fuel cb = .finished cb drawn ∧ drawn.map Block.value = q := by
  obtain ⟨hs, hl, hst, hq, he, hb⟩ := h
  refine ⟨_, plot_loop_spec cb C hs hl hmax q.length fuel cb.start hst hq he hf, ?_⟩
  apply List.ext_getElem?
  intro k
  by_cases hk : k < q.length
  · have h1 := hb k hk
    rw [List.getElem?_eq_getElem (l := q) hk] at h1
    simp [List.getElem?_map, List.getElem?_range hk, plot_block, List.getD_eq_getElem?_getD, h1]
  · have h1 : q[k]? = none := List.getElem?_eq_none (by omega)
    rw [h1]
    apply List.getElem?_eq_none
    simp
    omega


theorem holds_run_pushes {C : Nat} (hmax : C < SIZE_T_MOD) :
    ∀ (vs : List Int) (cb : CircularBuffer) (q : List Int), Holds C cb q →
      q.length + vs.length < C →
      ∃ cb', run cb (vs.map Op.push) = .done (cb', []) ∧ Holds C cb' (q ++ vs) := by
  intro vs
  induction vs with
  | nil =>
    intro cb q h _
    exact ⟨cb, rfl, by simpa using h⟩
  | cons v vs ih =>
    intro cb q h hlen
    simp only [List.length_cons] at hlen
    obtain ⟨cb', hpush, hcb', _⟩ := holds_push hmax h (by omega) v
    obtain ⟨cb2, hr, hh⟩ := ih cb' (q ++ [v]) hcb' (by simp; omega)
    exact ⟨cb2, by simp [run, hpush, hr], by simpa using hh⟩

theorem in_bounds_push {C : Nat} {cb cb' : CircularBuffer} {value : Int}
    (h : InBounds C cb) (hp : push_buffer value cb = .done cb') :
    InBounds C cb' ∧ cb'.start = cb.start ∧ cb'.size = cb.size ∧
      cb'.buffer = cb.buffer.set cb.end_ value := by
  obtain ⟨hs, hl, hst, hen⟩ := h
  unfold push_buffer at hp
  split_ifs at hp with h1 h2 h3
  simp only [Outcome.done.injEq] at hp
  subst hp
  refine ⟨⟨hs, by simpa using hl, hst, ?_⟩, rfl, rfl, rfl⟩
  show next_index cb.end_ cb.size < C
  rw [hs]
  exact next_index_lt _ _ (by omega)

theorem in_bounds_pop {C : Nat} {cb cb' : CircularBuffer} {value : Int}
    (h : InBounds C cb) (hp : pop_buffer cb = .done (value, cb')) :
    InBounds C cb' ∧ cb'.end_ = cb.end_ ∧ cb'.size = cb.size ∧
      cb'.buffer = cb.buffer ∧ cb.buffer[cb.start]? = some value := by
  obtain ⟨hs, hl, hst, hen⟩ := h
  have hsz : cb.size ≠ 0 := by omega
  unfold pop_buffer at hp
  rw [List.getElem?_eq_getElem (show cb.start < cb.buffer.length by omega)] at hp
  simp only [hsz, if_false] at hp
  split_ifs at hp with h1
  simp only [Outcome.done.injEq, Prod.mk.injEq] at hp
  obtain ⟨rfl, rfl⟩ := hp
  refine ⟨⟨hs, hl, ?_, hen⟩, rfl, rfl, rfl, List.getElem?_eq_getElem _⟩
  show next_index cb.start cb.size < C
  rw [hs]
  exact next_index_lt _ _ (by omega)

theorem in_bounds_no_fault {C : Nat} {cb : CircularBuffer} (h : InBounds C cb) :
    (∀ value, push_buffer value cb ≠ .fault) ∧ pop_buffer cb ≠ .fault := by
  obtain ⟨hs, hl, hst, hen⟩ := h
  have hsz : cb.size ≠ 0 := by omega
  constructor
  · intro value
    unfold push_buffer
    rw [if_neg hsz, if_pos (show cb.end_ < cb.buffer.length by omega)]
    split <;> simp
  · unfold pop_buffer
    rw [List.getElem?_eq_getElem (show cb.start < cb.buffer.length by omega)]
    simp only [hsz, if_false]
    split <;> simp

theorem in_bounds_plot_loop {C : Nat} {cb : CircularBuffer}
    (hs : cb.size = C) (hl : cb.buffer.length = C) :
    ∀ (fuel i : Nat), i < C → plot_loop fuel cb i ≠ .fault := by
  intro fuel
  induction fuel with
  | zero =>
    intro i _
    simp [plot_loop]
  | succ fuel ih =>
    intro i hi
    have hsz : cb.size ≠ 0 := by omega
    have hrec := ih (next_index i cb.size) (by rw [hs]; exact next_index_lt _ _ (by omega))
    rw [plot_loop, List.getElem?_eq_getElem (show i < cb.buffer.length by omega)]
    simp only [hsz, if_false]
    split
    · simp
    · split
      · simp
      · assumption

theorem in_bounds_run {C : Nat} :
    ∀ (ops : List Op) (cb last : CircularBuffer) (popped : List Int), InBounds C cb →
      run cb ops = .done (last, popped) → InBounds C last := by
  intro ops
  induction ops with
  | nil =>
    intro cb last popped h hr
    simp only [run, Outcome.done.injEq, Prod.mk.injEq] at hr
    rw [← hr.1]
    exact h
  | cons op ops ih =>
    intro cb last popped h hr
    cases op with
    | push value =>
      rw [run] at hr
      split at hr
      · rename_i cb' hp
        exact ih cb' last popped (in_bounds_push h hp).1 hr
      · exact absurd hr (by simp)
      · exact absurd hr (by simp)
    | pop =>
      rw [run] at hr
      split at hr
      · rename_i value cb' hp
        split at hr
        · rename_i last' values hrun
          simp only [Outcome.done.injEq, Prod.mk.injEq] at hr
          rw [← hr.1]
          exact ih cb' last' values (in_bounds_pop h hp).1 hrun
        · exact absurd hr (by simp)
        · exact absurd hr (by simp)
      · exact absurd hr (by simp)
      · exact absurd hr (by simp)


theorem run_pushes_append :
    ∀ (vs : List Int) (c0 c1 : CircularBuffer) (ops : List Op),
      run c0 (vs.map Op.push) = .done (c1, []) →
      run c0 (vs.map Op.push ++ ops) = run c1 ops := by
  intro vs
  induction vs with
  | nil =>
    intro c0 c1 ops h
    simp only [List.map_nil, run, Outcome.done.injEq, Prod.mk.injEq, and_true] at h
    rw [h]
    rfl
  | cons v vs ih =>
    intro c0 c1 ops h
    simp only [List.map_cons, List.cons_append, run] at h ⊢
    split at h
    · rename_i cb' hp
      exact ih cb' c1 ops h
    · exact absurd h (by simp)
    · exact absurd h (by simp)

theorem no_wait_run :
    ∀ (ops : List Op) (cb : CircularBuffer), no_wait cb ops = true →
      run cb ops ≠ .blocked := by
  intro ops
  induction ops with
  | nil =>
    intro cb _
    simp [run]
  | cons op ops ih =>
    intro cb h
    cases op with
    | push value =>
      simp only [no_wait, Bool.and_eq_true, Bool.not_eq_true'] at h
      obtain ⟨hw, hrest⟩ := h
      rw [run]
      cases hp : push_buffer value cb with
      | done cb' =>
        rw [hp] at hrest
        exact ih cb' hrest
      | blocked =>
        have hnb : push_buffer value cb ≠ .blocked := by
          unfold push_buffer
          simp only [hw, Bool.false_eq_true, if_false]
          split_ifs <;> simp
        exact absurd hp hnb
      | fault => simp
    | pop =>
      simp only [no_wait, Bool.and_eq_true, Bool.not_eq_true'] at h
      obtain ⟨hw, hrest⟩ := h
      rw [run]
      cases hp : pop_buffer cb with
      | done res =>
        obtain ⟨value, cb'⟩ := res
        rw [hp] at hrest
        have := ih cb' hrest
        simp only
        split <;> simp_all
      | blocked =>
        have hnb : pop_buffer cb ≠ .blocked := by
          unfold pop_buffer
          rw [hw]
          simp only [Bool.false_eq_true, if_false]
          split
          · simp
          · split_ifs <;> simp
        exact absurd hp hnb
      | fault => simp

/-! ## The claims -/

/-- C1: for a capacity `C` of at least 2 (a `size_t`, over a block of `C`
integers) and every sequence of `push_buffer` and `pop_buffer` calls on the
freshly initialised buffer in which no call finds its wait condition true,
all calls return, and the values returned by the pops are the first
`pops ops` values pushed, in push order: a leading segment of the pushed
values, none lost, duplicated or reordered. -/
theorem fifo_order (C : Nat) (mem : List Int) (ops : List Op)
    (hC : 2 ≤ C) (hmax : C < SIZE_T_MOD) (hmem : mem.length = C)
    (hvalid : no_wait (init_buffer C mem) ops = true) :
    ∃ cb popped, run (init_buffer C mem) ops = .done (cb, popped) ∧
      popped.length = pops ops ∧
      popped = (pushed ops).take (pops ops) ∧
      popped <+: pushed ops := by
  obtain ⟨cb, popped, hr, hle, hpop, _⟩ :=
    holds_run hmax ops _ [] (holds_init C mem (by omega) hmem) (no_wait_run ops _ hvalid)
  simp only [List.nil_append] at hle hpop
  refine ⟨cb, popped, hr, ?_, hpop, ?_⟩
  · rw [hpop, List.length_take]
    omega
  · rw [hpop]
    exact ⟨(pushed ops).drop (pops ops), List.take_append_drop _ _⟩

/-- Witness of C1: capacity 4, two pushes, a pop, a push and a pop. -/
theorem fifo_order_witness :
    ∃ cb popped,
      run (init_buffer 4 [9, 9, 9, 9]) [.push 1, .push 2, .pop, .push 3, .pop]
        = .done (cb, popped) ∧
      popped.length = pops [.push 1, .push 2, .pop, .push 3, .pop] ∧
      popped = (pushed [.push 1, .push 2, .pop, .push 3, .pop]).take
        (pops [.push 1, .push 2, .pop, .push 3, .pop]) ∧
      popped <+: pushed [.push 1, .push 2, .pop, .push 3, .pop] :=
  fifo_order 4 [9, 9, 9, 9] [.push 1, .push 2, .pop, .push 3, .pop]
    (by decide) (by decide) rfl (by decide)


/-- C2: for a capacity `C` of at least 1, from `init_buffer(C)` and with no
pops, any number of pushes below `C` all return, they leave that many
values held, and the next push waits exactly when `C - 1` values are held,
so the first `C - 1` pushes return and the `C`-th waits; and in every state
reached by calls that did not wait the number of held values
`(end - start) mod C` is at most `C - 1`, and a push waits exactly when
that number is `C - 1`. -/
theorem usable_capacity (C : Nat) (mem : List Int)
    (hC : 1 ≤ C) (hmax : C < SIZE_T_MOD) (hmem : mem.length = C) :
    (∀ vs : List Int, vs.length < C →
      ∃ cb, run (init_buffer C mem) (vs.map Op.push) = .done (cb, []) ∧
        held cb = vs.length ∧
        (push_waits cb = true ↔ vs.length = C - 1) ∧
        (∀ value, push_buffer value cb = .blocked ↔ vs.length = C - 1)) ∧
    (∀ ops cb popped, run (init_buffer C mem) ops = .done (cb, popped) →
      held cb ≤ C - 1 ∧
      (push_waits cb = true ↔ held cb = C - 1) ∧
      (∀ value, push_buffer value cb = .blocked ↔ held cb = C - 1)) := by
  have key : ∀ (cb : CircularBuffer) (q : List Int), Holds C cb q →
      held cb = q.length ∧ held cb ≤ C - 1 ∧
      (push_waits cb = true ↔ held cb = C - 1) ∧
      (∀ value, push_buffer value cb = .blocked ↔ held cb = C - 1) := by
    intro cb q h
    have hh := holds_held h
    have hw := holds_push_waits hmax h
    have hq : q.length < C := h.2.2.2.1
    have hw2 : push_waits cb = true ↔ held cb = C - 1 := by
      rw [hw, hh]; omega
    refine ⟨hh, by omega, hw2, ?_⟩
    intro value
    rw [← hw2]
    have hsz : cb.size ≠ 0 := by have := h.1; omega
    unfold push_buffer
    rw [if_neg hsz]
    cases hpw : push_waits cb with
    | true => simp
    | false =>
      simp only [Bool.false_eq_true, if_false, iff_false]
      split <;> simp
  have h0 := holds_init C mem hC hmem
  constructor
  · intro vs hvs
    obtain ⟨cb, hr, hcb⟩ := holds_run_pushes hmax vs _ [] h0 (by simpa using hvs)
    simp only [List.nil_append] at hcb
    obtain ⟨k1, _, k3, k4⟩ := key cb vs hcb
    refine ⟨cb, hr, k1, ?_, ?_⟩
    · rw [k3, k1]
    · intro value
      rw [k4, k1]
  · intro ops cb popped hr
    obtain ⟨cb', popped', hr', _, _, hcb⟩ :=
      holds_run hmax ops _ [] h0 (by rw [hr]; simp)
    rw [hr] at hr'
    simp only [Outcome.done.injEq, Prod.mk.injEq] at hr'
    obtain ⟨rfl, rfl⟩ := hr'
    exact (key cb _ hcb).2

/-- Witness of C2: capacity 4 over a block of four integers. -/
theorem usable_capacity_witness :
    (∀ vs : List Int, vs.length < 4 →
      ∃ cb, run (init_buffer 4 [9, 9, 9, 9]) (vs.map Op.push) = .done (cb, []) ∧
        held cb = vs.length ∧
        (push_waits cb = true ↔ vs.length = 4 - 1) ∧
        (∀ value, push_buffer value cb = .blocked ↔ vs.length = 4 - 1)) ∧
    (∀ ops cb popped, run (init_buffer 4 [9, 9, 9, 9]) ops = .done (cb, popped) →
      held cb ≤ 4 - 1 ∧
      (push_waits cb = true ↔ held cb = 4 - 1) ∧
      (∀ value, push_buffer value cb = .blocked ↔ held cb = 4 - 1)) :=
  usable_capacity 4 [9, 9, 9, 9] (by decide) (by decide) rfl

/-- C3: for a capacity `C` of at least 2 and every sequence of calls on the
fresh buffer in which no call waits, the loop of `plot_thread_func` visits
exactly the values pushed and not yet popped, in push order.  With `C = 8`:
the pushes of 1, ..., 7 return, an eighth push would wait, and after one pop
and the push of 8 the loop visits exactly 2, 3, 4, 5, 6, 7, 8. -/
theorem snapshot_is_queue :
    (∀ (C : Nat) (mem : List Int) (ops : List Op),
      2 ≤ C → C < SIZE_T_MOD → mem.length = C →
      no_wait (init_buffer C mem) ops = true →
      ∃ cb popped, run (init_buffer C mem) ops = .done (cb, popped) ∧
        ∀ fuel, C ≤ fuel →
          drawn_values (snapshot fuel cb) = some ((pushed ops).drop (pops ops))) ∧
    (∀ mem : List Int, mem.length = 8 →
      ∃ cb7 cb,
        run (init_buffer 8 mem) ([1, 2, 3, 4, 5, 6, 7].map Op.push) = .done (cb7, []) ∧
        (∀ value, push_buffer value cb7 = .blocked) ∧
        run cb7 [.pop, .push 8] = .done (cb, [1]) ∧
        run (init_buffer 8 mem) ([1, 2, 3, 4, 5, 6, 7].map Op.push ++ [.pop, .push 8])
          = .done (cb, [1]) ∧
        drawn_values (snapshot 8 cb) = some [2, 3, 4, 5, 6, 7, 8]) := by
  have hmax8 : 8 < SIZE_T_MOD := by decide
  constructor
  · intro C mem ops hC hmax hmem hvalid
    obtain ⟨cb, popped, hr, _, _, hcb⟩ :=
      holds_run hmax ops _ [] (holds_init C mem (by omega) hmem) (no_wait_run ops _ hvalid)
    simp only [List.nil_append] at hcb
    refine ⟨cb, popped, hr, ?_⟩
    intro fuel hf
    have hq : ((pushed ops).drop (pops ops)).length < C := hcb.2.2.2.1
    obtain ⟨drawn, hsnap, hvals⟩ := holds_snapshot hmax hcb fuel (by omega)
    rw [hsnap, drawn_values, hvals]
  · intro mem hmem
    have h0 := holds_init 8 mem (by decide) hmem
    obtain ⟨cb7, hr7, hcb7⟩ := holds_run_pushes hmax8 [1, 2, 3, 4, 5, 6, 7] _ [] h0 (by decide)
    simp only [List.nil_append] at hcb7
    obtain ⟨cbp, hpop, hcbp, _⟩ := holds_pop hmax8 hcb7
    obtain ⟨cb, hpush, hcb, _⟩ := holds_push hmax8 hcbp (by decide) 8
    obtain ⟨drawn, hsnap, hvals⟩ := holds_snapshot hmax8 hcb 8 (by decide)
    have hrun2 : run cb7 [.pop, .push 8] = .done (cb, [1]) := by
      simp [run, hpop, hpush]
    refine ⟨cb7, cb, hr7, holds_push_blocked hmax8 hcb7 (by decide), hrun2, ?_, ?_⟩
    · rw [run_pushes_append _ _ _ _ hr7, hrun2]
    · rw [hsnap, drawn_values, hvals]
      rfl


/-- Witness of C3: capacity 8, the pushes of 1 to 7, one pop and the push of 8. -/
theorem snapshot_is_queue_witness :
    ∃ cb popped,
      run (init_buffer 8 [0, 0, 0, 0, 0, 0, 0, 0])
        [.push 1, .push 2, .push 3, .push 4, .push 5, .push 6, .push 7, .pop, .push 8]
        = .done (cb, popped) ∧
      ∀ fuel, 8 ≤ fuel →
        drawn_values (snapshot fuel cb) =
          some ((pushed
            [.push 1, .push 2, .push 3, .push 4, .push 5, .push 6, .push 7, .pop, .push 8]).drop
            (pops
              [.push 1, .push 2, .push 3, .push 4, .push 5, .push 6, .push 7, .pop, .push 8])) :=
  snapshot_is_queue.1 8 [0, 0, 0, 0, 0, 0, 0, 0]
    [.push 1, .push 2, .push 3, .push 4, .push 5, .push 6, .push 7, .pop, .push 8]
    (by decide) (by decide) rfl (by decide)

/-- C4: for every buffer state of size `C` at least 1 (a `size_t`, over a
block of `C` integers) with `start < C` and `end < C`, the loop of
`plot_thread_func` visits exactly the pairs `(i, buffer[i])` for
`i = start, (start + 1) mod C, ...` up to and excluding `end`, in that
order: it visits `(end - start) mod C` pairs, each slot index is the
absolute ring position below `C`, and no other slot is visited. -/
theorem snapshot_visits (C : Nat) (cb : CircularBuffer) (fuel : Nat)
    (hC : 1 ≤ C) (hmax : C < SIZE_T_MOD) (hs : cb.size = C)
    (hl : cb.buffer.length = C) (hst : cb.start < C) (hen : cb.end_ < C)
    (hf : C ≤ fuel) :
    snapshot fuel cb = .finished cb
      ((List.range (held cb)).map fun k =>
        plot_block (ring cb k) (cb.buffer.getD (ring cb k) 0)) ∧
    held cb < C ∧
    ring cb (held cb) = cb.end_ ∧
    ∀ k, k < held cb →
      ring cb k < C ∧ ring cb k ≠ cb.end_ ∧
      cb.buffer[ring cb k]? = some (cb.buffer.getD (ring cb k) 0) := by
  subst hs
  obtain ⟨hh, he⟩ := held_spec cb (by omega) hst hen
  refine ⟨?_, hh, he.symm, ?_⟩
  · exact plot_loop_spec cb cb.size rfl hl hmax (held cb) fuel cb.start hst hh he (by omega)
  · intro k hk
    have hlt : ring cb k < cb.size := Nat.mod_lt _ (by omega)
    refine ⟨hlt, ?_, ?_⟩
    · unfold ring
      rw [he, mod_wrap _ _ (by omega), mod_wrap _ _ (by omega)]
      split <;> split <;> omega
    · rw [List.getD_eq_getElem?_getD, List.getElem?_eq_getElem (by omega)]
      rfl

/-- Witness of C4: a buffer of size 4 whose occupied range wraps around. -/
theorem snapshot_visits_witness :
    snapshot 4 { buffer := [10, 20, 30, 40], size := 4, start := 3, end_ := 1 }
      = .finished { buffer := [10, 20, 30, 40], size := 4, start := 3, end_ := 1 }
          [plot_block 3 40, plot_block 0 10] :=
  (snapshot_visits 4 { buffer := [10, 20, 30, 40], size := 4, start := 3, end_ := 1 } 4
    (by decide) (by decide) rfl rfl (by decide) (by decide) (by decide)).1

/-- C5: the loop of `plot_thread_func` never waits and changes nothing: for
every state of size `C` at least 1 with `start < C` and `end < C` it ends
after `(end - start) mod C` passes through its body, fewer than `C` (none,
with nothing drawn, when `start == end`), whatever larger budget it is
given, and `start`, `end` and the storage are afterwards what they were. -/
theorem snapshot_terminates (C : Nat) (cb : CircularBuffer)
    (hC : 1 ≤ C) (hmax : C < SIZE_T_MOD) (hs : cb.size = C)
    (hl : cb.buffer.length = C) (hst : cb.start < C) (hen : cb.end_ < C) :
    ∃ drawn,
      (∀ fuel, held cb < fuel → snapshot fuel cb = .finished cb drawn) ∧
      drawn.length = held cb ∧ held cb < C ∧
      (cb.start = cb.end_ → drawn = [] ∧ snapshot 1 cb = .finished cb []) := by
  subst hs
  obtain ⟨hh, he⟩ := held_spec cb (by omega) hst hen
  refine ⟨_, fun fuel hf =>
    plot_loop_spec cb cb.size rfl hl hmax (held cb) fuel cb.start hst hh he hf, ?_, hh, ?_⟩
  · simp
  · intro heq
    have h0 : held cb = 0 := by
      rw [held_eq cb hst hen, if_pos (by omega)]
      omega
    rw [h0]
    refine ⟨rfl, ?_⟩
    simp [snapshot, plot_loop, heq]

/-- Witness of C5: a buffer of size 4 holding two values across the wrap. -/
theorem snapshot_terminates_witness :
    ∃ drawn,
      (∀ fuel, held { buffer := [10, 20, 30, 40], size := 4, start := 3, end_ := 1 } < fuel →
        snapshot fuel { buffer := [10, 20, 30, 40], size := 4, start := 3, end_ := 1 }
          = .finished { buffer := [10, 20, 30, 40], size := 4, start := 3, end_ := 1 } drawn) ∧
      drawn.length = held { buffer := [10, 20, 30, 40], size := 4, start := 3, end_ := 1 } ∧
      held { buffer := [10, 20, 30, 40], size := 4, start := 3, end_ := 1 } < 4 ∧
      ((3 : Nat) = 1 → drawn = [] ∧
        snapshot 1 { buffer := [10, 20, 30, 40], size := 4, start := 3, end_ := 1 }
          = .finished { buffer := [10, 20, 30, 40], size := 4, start := 3, end_ := 1 } []) :=
  snapshot_terminates 4 { buffer := [10, 20, 30, 40], size := 4, start := 3, end_ := 1 }
    (by decide) (by decide) rfl rfl (by decide) (by decide)

/-- C10: for every size `C` at least 1 (over a block of `C` integers) the
bounds `start < C` and `end < C` hold after `init_buffer(C)` and after every
`push_buffer` and `pop_buffer` that returns, so they hold in every state
reached from `init_buffer(C)`, and under them `push_buffer`, `pop_buffer` and
the plot loop stay inside the block; a push changes only `end` and the slot
at the old `end`, a pop changes only `start`. -/
theorem index_bounds (C : Nat) (mem : List Int) (hC : 1 ≤ C) (hmem : mem.length = C) :
    InBounds C (init_buffer C mem) ∧
    (∀ cb value cb', InBounds C cb → push_buffer value cb = .done cb' →
      InBounds C cb' ∧ cb'.start = cb.start ∧ cb'.size = cb.size ∧
      cb'.buffer = cb.buffer.set cb.end_ value ∧
      ∀ j, j ≠ cb.end_ → cb'.buffer[j]? = cb.buffer[j]?) ∧
    (∀ cb value cb', InBounds C cb → pop_buffer cb = .done (value, cb') →
      InBounds C cb' ∧ cb'.end_ = cb.end_ ∧ cb'.size = cb.size ∧
      cb'.buffer = cb.buffer ∧ cb.buffer[cb.start]? = some value) ∧
    (∀ cb, InBounds C cb →
      (∀ value, push_buffer value cb ≠ .fault) ∧ pop_buffer cb ≠ .fault ∧
      ∀ fuel, snapshot fuel cb ≠ .fault) ∧
    (∀ ops cb popped, run (init_buffer C mem) ops = .done (cb, popped) →
      InBounds C cb) := by
  have h0 : InBounds C (init_buffer C mem) := ⟨rfl, hmem, hC, hC⟩
  refine ⟨h0, ?_, ?_, ?_, ?_⟩
  · intro cb value cb' h hp
    obtain ⟨h1, h2, h3, h4⟩ := in_bounds_push h hp
    refine ⟨h1, h2, h3, h4, ?_⟩
    intro j hj
    rw [h4, List.getElem?_set_ne (Ne.symm hj)]
  · intro cb value cb' h hp
    exact in_bounds_pop h hp
  · intro cb h
    exact ⟨(in_bounds_no_fault h).1, (in_bounds_no_fault h).2,
      fun fuel => in_bounds_plot_loop h.1 h.2.1 fuel cb.start h.2.2.1⟩
  · intro ops cb popped hr
    exact in_bounds_run ops _ cb popped h0 hr

/-- Witness of C10: size 3 over a block of three integers. -/
theorem index_bounds_witness :
    InBounds 3 (init_buffer 3 [7, 8, 9]) :=
  (index_bounds 3 [7, 8, 9] (by decide) rfl).1


/-! ## Colours -/

theorem toUint8_tmod (x : Int) : toUint8 (Int.tmod x 256) = (x % 256).toNat := by
  unfold toUint8
  have h := Int.tmod_def x 256
  have : Int.tmod x 256 % 256 = x % 256 := by omega
  rw [this]

theorem toUint8_lt (x : Int) : toUint8 x < 256 := by
  unfold toUint8
  omega

theorem tdiv_toward_zero (v d : Int) (hd : 0 ≤ d) : Int.tdiv v d = toward_zero v d := by
  unfold toward_zero
  split
  · rw [Int.tdiv_eq_ediv ‹_› hd, Int.fdiv_eq_ediv _ hd]
  · rw [Int.fdiv_eq_ediv _ hd, ← Int.tdiv_eq_ediv (by omega) hd, Int.neg_tdiv, Int.neg_neg]

/-- C6, as the specification words it, fails at `v = -1`: the code computes
green 0 and blue 0 where the floor formula gives 255 and 255. -/
theorem colour_floor_fails :
    green (-1) = 0 ∧ spec_green (-1) = 255 ∧ blue (-1) = 0 ∧ spec_blue (-1) = 255 ∧
    green (-1) ≠ spec_green (-1) ∧ blue (-1) ≠ spec_blue (-1) := by
  decide

/-- C6, amended: for every sample value `v` the colour of the plot loop is
`red = v mod 256`, `green = q2 mod 256` and `blue = q4 mod 256` with the
non-negative modulus, where `q2` and `q4` are the quotients of `v` by 2 and
by 4 rounded toward zero; each is in 0..255; for `v` at least 0 the quotients
are the floors, so green and blue are as the specification words them;
`v = 256` gives (0, 128, 64) and `v = 0` gives (0, 0, 0). -/
theorem colour_formula (v : Int) :
    red v = spec_red v ∧
    green v = (toward_zero v 2 % 256).toNat ∧
    blue v = (toward_zero v 4 % 256).toNat ∧
    red v < 256 ∧ green v < 256 ∧ blue v < 256 ∧
    (0 ≤ v → green v = spec_green v ∧ blue v = spec_blue v) ∧
    (red 256, green 256, blue 256) = (0, 128, 64) ∧
    (red 0, green 0, blue 0) = (0, 0, 0) := by
  have hg : green v = (toward_zero v 2 % 256).toNat := by
    rw [green, toUint8_tmod, tdiv_toward_zero v 2 (by decide)]
  have hb : blue v = (toward_zero v 4 % 256).toNat := by
    rw [blue, toUint8_tmod, tdiv_toward_zero v 4 (by decide)]
  refine ⟨toUint8_tmod v, hg, hb, toUint8_lt _, toUint8_lt _, toUint8_lt _, ?_, by decide,
    by decide⟩
  intro hv
  rw [hg, hb]
  simp [toward_zero, hv, spec_green, spec_blue]

/-- Witness of C6 as amended: the sample value 6 gives green 3 and blue 1,
which are the floor values. -/
theorem colour_formula_witness :
    green 6 = spec_green 6 ∧ blue 6 = spec_blue 6 :=
  (colour_formula 6).2.2.2.2.2.2.1 (by decide)


/-! ## The producer loop -/

/-- C7: a pass through the loop of `read_file_thread` that starts with
`read_restart` set calls `lseek` to offset 0 exactly once, before its
`read`, and leaves the flag cleared; a pass that starts with the flag clear
calls no `lseek` and leaves the flag clear. -/
theorem restart_resets_once (r : ReadResult) (p : Producer) :
    (p.read_restart ≠ 0 →
      (read_file_iteration r p).calls =
        p.calls ++ [Call.lseek 0, Call.read] ++
          (if r.ret = SIZEOF_INT then [Call.push_buffer r.random_value] else []) ∧
      resets (read_file_iteration r p).calls = resets p.calls + 1 ∧
      (read_file_iteration r p).read_restart = 0) ∧
    (p.read_restart = 0 →
      (read_file_iteration r p).calls =
        p.calls ++ [Call.read] ++
          (if r.ret = SIZEOF_INT then [Call.push_buffer r.random_value] else []) ∧
      resets (read_file_iteration r p).calls = resets p.calls ∧
      (read_file_iteration r p).read_restart = 0) := by
  have hres : ∀ (cs ds : List Call), resets (cs ++ ds) = resets cs + resets ds := by
    intro cs ds
    induction cs with
    | nil => simp [resets]
    | cons c cs ih =>
      cases c <;> simp [resets, ih]
      omega
  constructor
  · intro hset
    have hcalls : (read_file_iteration r p).calls =
        p.calls ++ [Call.lseek 0, Call.read] ++
          (if r.ret = SIZEOF_INT then [Call.push_buffer r.random_value] else []) := by
      unfold read_file_iteration
      simp only [hset, ne_eq, not_false_eq_true, if_true]
      split
      · split <;> simp
      · simp
    refine ⟨hcalls, ?_, ?_⟩
    · rw [hcalls, hres, hres]
      split <;> simp [resets]
    · unfold read_file_iteration
      simp only [hset, ne_eq, not_false_eq_true, if_true]
      split
      · split <;> rfl
      · rfl
  · intro hclear
    have hcalls : (read_file_iteration r p).calls =
        p.calls ++ [Call.read] ++
          (if r.ret = SIZEOF_INT then [Call.push_buffer r.random_value] else []) := by
      unfold read_file_iteration
      simp only [hclear, ne_eq, not_true_eq_false, if_false]
      split
      · split <;> simp
      · simp
    refine ⟨hcalls, ?_, ?_⟩
    · rw [hcalls, hres, hres]
      split <;> simp [resets]
    · unfold read_file_iteration
      simp only [hclear, ne_eq, not_true_eq_false, if_false]
      split
      · split <;> rfl
      · rfl

/-- Witness of C7: a pass that starts with the flag set, over a buffer of size 4. -/
theorem restart_resets_once_witness :
    (read_file_iteration ⟨4, 5⟩
        { read_restart := 1, cb := init_buffer 4 [0, 0, 0, 0], calls := [],
          status := Status.running }).calls
      = [Call.lseek 0, Call.read, Call.push_buffer 5] ∧
    (read_file_iteration ⟨4, 5⟩
        { read_restart := 1, cb := init_buffer 4 [0, 0, 0, 0], calls := [],
          status := Status.running }).read_restart = 0 :=
  ⟨((restart_resets_once ⟨4, 5⟩
      { read_restart := 1, cb := init_buffer 4 [0, 0, 0, 0], calls := [],
        status := Status.running }).1 (by decide)).1,
   ((restart_resets_once ⟨4, 5⟩
      { read_restart := 1, cb := init_buffer 4 [0, 0, 0, 0], calls := [],
        status := Status.running }).1 (by decide)).2.2⟩

theorem iteration_status (r : ReadResult) (p : Producer) :
    (read_file_iteration r p).status = p.status ∨
    (read_file_iteration r p).status = Status.blocked ∨
    (read_file_iteration r p).status = Status.fault := by
  by_cases hflag : p.read_restart = 0 <;> by_cases hok : r.ret = SIZEOF_INT <;>
    cases hp : push_buffer r.random_value p.cb <;>
    simp [read_file_iteration, hflag, hok, hp]

theorem iteration_calls_exit (r : ReadResult) (p : Producer) (code : Int) :
    Call.exit code ∈ (read_file_iteration r p).calls → Call.exit code ∈ p.calls := by
  by_cases hflag : p.read_restart = 0 <;> by_cases hok : r.ret = SIZEOF_INT <;>
    cases hp : push_buffer r.random_value p.cb <;>
    simp [read_file_iteration, hflag, hok, hp]

theorem loop_never_exits (code : Int) :
    ∀ (reads : List ReadResult) (p : Producer),
      ((read_file_loop reads p).status = Status.exited code →
        p.status = Status.exited code) ∧
      (Call.exit code ∈ (read_file_loop reads p).calls → Call.exit code ∈ p.calls) := by
  intro reads
  induction reads with
  | nil =>
    intro p
    exact ⟨fun h => h, fun h => h⟩
  | cons r reads ih =>
    intro p
    cases hst : p.status with
    | running =>
      have hloop : read_file_loop (r :: reads) p =
          read_file_loop reads (read_file_iteration r p) := by
        rw [read_file_loop, hst]
      rw [hloop]
      obtain ⟨ih1, ih2⟩ := ih (read_file_iteration r p)
      constructor
      · intro h
        have h1 := ih1 h
        rcases iteration_status r p with h2 | h2 | h2
        · rw [h2, hst] at h1
          exact h1
        · rw [h2] at h1
          exact absurd h1 (by simp)
        · rw [h2] at h1
          exact absurd h1 (by simp)
      · intro h
        exact iteration_calls_exit r p code (ih2 h)
    | blocked =>
      have hloop : read_file_loop (r :: reads) p = p := by
        rw [read_file_loop, hst]
      rw [hloop, hst]
      exact ⟨fun h => h, fun h => h⟩
    | fault =>
      have hloop : read_file_loop (r :: reads) p = p := by
        rw [read_file_loop, hst]
      rw [hloop, hst]
      exact ⟨fun h => h, fun h => h⟩
    | exited c =>
      have hloop : read_file_loop (r :: reads) p = p := by
        rw [read_file_loop, hst]
      rw [hloop, hst]
      exact ⟨fun h => h, fun h => h⟩

/-- C8, as stated, fails: after a `read` that returns -1 the producer is
still at the head of its loop, it has not called `exit`, and the next
pass reads again and pushes. -/
theorem read_failure_not_fatal :
    (read_file_iteration ⟨-1, 0⟩ (producer_start (init_buffer 4 [0, 0, 0, 0]))).status
      = Status.running ∧
    (read_file_thread 3 [⟨-1, 0⟩, ⟨4, 7⟩] (producer_start (init_buffer 4 [0, 0, 0, 0]))).status
      ≠ Status.exited EXIT_FAILURE ∧
    (read_file_thread 3 [⟨-1, 0⟩, ⟨4, 7⟩] (producer_start (init_buffer 4 [0, 0, 0, 0]))).calls
      = [Call.read, Call.read, Call.push_buffer 7] ∧
    (read_file_thread 3 [⟨-1, 0⟩, ⟨4, 7⟩]
      (producer_start (init_buffer 4 [0, 0, 0, 0]))).cb.buffer = [7, 0, 0, 0] := by
  decide

/-- C8, amended: a pass through the loop of `read_file_thread` in which
`read` does not deliver a full integer pushes nothing, leaves the buffer as
it was and the thread at the head of the loop, and the loop goes on with
the next pass, which reads again; the thread ends the process with failure
when `open` fails, before any pass, and only then: when `open` succeeds no
pass and no run of the loop, whatever the reads deliver and whether or not
the buffer fills, calls `exit` or leaves the process exited; when `read`
delivers a full integer the pass calls `push_buffer` once, with exactly that
sample. -/
theorem read_failure_skips (r : ReadResult) (p : Producer) :
    (r.ret ≠ SIZEOF_INT →
      (read_file_iteration r p).cb = p.cb ∧
      (read_file_iteration r p).status = p.status ∧
      (read_file_iteration r p).calls =
        p.calls ++ (if p.read_restart ≠ 0 then [Call.lseek 0] else []) ++ [Call.read] ∧
      (p.status = Status.running → ∀ next reads,
        read_file_loop (r :: next :: reads) p =
          read_file_loop reads (read_file_iteration next (read_file_iteration r p)))) ∧
    (r.ret = SIZEOF_INT →
      (read_file_iteration r p).calls =
        p.calls ++ (if p.read_restart ≠ 0 then [Call.lseek 0] else []) ++
          [Call.read, Call.push_buffer r.random_value] ∧
      (∀ cb', push_buffer r.random_value p.cb = .done cb' →
        (read_file_iteration r p).cb = cb' ∧ (read_file_iteration r p).status = p.status) ∧
      (push_buffer r.random_value p.cb = .blocked →
        (read_file_iteration r p).cb = p.cb ∧
        (read_file_iteration r p).status = Status.blocked)) ∧
    (∀ reads,
      read_file_thread (-1) reads p =
        { p with calls := p.calls ++ [Call.perror, Call.exit EXIT_FAILURE],
                 status := Status.exited EXIT_FAILURE }) ∧
    (∀ fd reads code, fd ≠ -1 →
      ((read_file_thread fd reads p).status = Status.exited code →
        p.status = Status.exited code) ∧
      (Call.exit code ∈ (read_file_thread fd reads p).calls → Call.exit code ∈ p.calls)) ∧
    (∀ code,
      ((read_file_iteration r p).status = Status.exited code →
        p.status = Status.exited code) ∧
      (Call.exit code ∈ (read_file_iteration r p).calls → Call.exit code ∈ p.calls)) := by
  refine ⟨?_, ?_, ?_, ?_, ?_⟩
  · intro hfail
    have h1 : (read_file_iteration r p).cb = p.cb := by
      unfold read_file_iteration
      simp only [hfail, if_false]
      split <;> rfl
    have h2 : (read_file_iteration r p).status = p.status := by
      unfold read_file_iteration
      simp only [hfail, if_false]
      split <;> rfl
    refine ⟨h1, h2, ?_, ?_⟩
    · unfold read_file_iteration
      simp only [hfail, if_false]
      split <;> simp
    · intro hrun next reads
      have h3 : (read_file_iteration r p).status = Status.running := by rw [h2, hrun]
      rw [read_file_loop, hrun]
      simp only
      rw [read_file_loop, h3]
  · intro hok
    refine ⟨?_, ?_, ?_⟩
    · unfold read_file_iteration
      simp only [hok, if_true]
      split <;> split <;> simp
    · intro cb' hp
      by_cases hflag : p.read_restart = 0 <;>
        simp [read_file_iteration, hflag, hok, hp]
    · intro hp
      by_cases hflag : p.read_restart = 0 <;>
        simp [read_file_iteration, hflag, hok, hp]
  · intro reads
    simp [read_file_thread]
  · intro fd reads code hfd
    have hthread : read_file_thread fd reads p = read_file_loop reads p := by
      rw [read_file_thread, if_neg hfd]
    rw [hthread]
    exact loop_never_exits code reads p
  · intro code
    refine ⟨?_, iteration_calls_exit r p code⟩
    intro h
    rcases iteration_status r p with h2 | h2 | h2
    · rw [h2] at h
      exact h
    · rw [h2] at h
      exact absurd h (by simp)
    · rw [h2] at h
      exact absurd h (by simp)

/-- Witness of C8 as amended: a pass whose `read` returns 2 of the 4 bytes. -/
theorem read_failure_skips_witness :
    (read_file_iteration ⟨2, 99⟩ (producer_start (init_buffer 4 [0, 0, 0, 0]))).cb
      = init_buffer 4 [0, 0, 0, 0] ∧
    (read_file_iteration ⟨2, 99⟩ (producer_start (init_buffer 4 [0, 0, 0, 0]))).status
      = Status.running ∧
    ((read_file_thread 3 [⟨4, 1⟩, ⟨4, 2⟩, ⟨4, 3⟩, ⟨4, 4⟩]
        (producer_start (init_buffer 4 [0, 0, 0, 0]))).status = Status.exited 1 →
      (producer_start (init_buffer 4 [0, 0, 0, 0])).status = Status.exited 1) :=
  ⟨((read_failure_skips ⟨2, 99⟩ (producer_start (init_buffer 4 [0, 0, 0, 0]))).1
      (by decide)).1,
   ((read_failure_skips ⟨2, 99⟩ (producer_start (init_buffer 4 [0, 0, 0, 0]))).1
      (by decide)).2.1,
   ((read_failure_skips ⟨2, 99⟩ (producer_start (init_buffer 4 [0, 0, 0, 0]))).2.2.2.1
      3 [⟨4, 1⟩, ⟨4, 2⟩, ⟨4, 3⟩, ⟨4, 4⟩] 1 (by decide)).1⟩

/-! ## The locking discipline -/

theorem guarded_push_wait (waits : Nat) (tail : List Step) :
    guarded true (push_wait_steps waits tail) = guarded true tail := by
  induction waits with
  | zero => simp [push_wait_steps, guarded]
  | succ n ih => simp [push_wait_steps, guarded, ih]

theorem guarded_pop_wait (waits : Nat) (tail : List Step) :
    guarded true (pop_wait_steps waits tail) = guarded true tail := by
  induction waits with
  | zero => simp [pop_wait_steps, guarded]
  | succ n ih => simp [pop_wait_steps, guarded, ih]

theorem guarded_plot_loop (passes : Nat) (tail : List Step) :
    guarded true (plot_loop_steps passes tail) = guarded true tail := by
  induction passes with
  | zero => simp [plot_loop_steps, guarded]
  | succ n ih => simp [plot_loop_steps, guarded, ih]

/-- C9: `push_buffer`, `pop_buffer` and the plot loop make every access to
the buffer with `cbuffer.mutex` held, however often they wait or loop, but
`handle_signal` releases the storage on `SIGINT` and on `SIGTERM` without
taking the mutex. -/
theorem handle_signal_unguarded :
    (∀ waits, guarded false (push_buffer_steps waits) = true) ∧
    (∀ waits, guarded false (pop_buffer_steps waits) = true) ∧
    (∀ passes, guarded false (plot_pass_steps passes) = true) ∧
    guarded false (handle_signal_steps SIGINT) = false ∧
    guarded false (handle_signal_steps SIGTERM) = false := by
  refine ⟨?_, ?_, ?_, by decide, by decide⟩
  · intro waits
    simp [push_buffer_steps, guarded, guarded_push_wait]
  · intro waits
    simp [pop_buffer_steps, guarded, guarded_pop_wait]
  · intro passes
    simp [plot_pass_steps, guarded, guarded_plot_loop]

end CircularBufferPlot
